import Mathlib

/-!
Verification of the `iosock` utility against its design description.

The development shallowly embeds the two components the claims are about:

* `FlipBuffer` — the double buffer from `src/main.rs` lines 23–113.  Pages
  are modelled as lists; the const generic capacity `N` is passed to the
  operations that mention it.  A callback passed to `with_read` reports how
  many elements it consumed; a callback passed to `with_write` reports how
  many elements it produced together with the new contents of the slice it
  was handed (modelling the in-place mutation of the Rust slice).  The
  `panic!` branches are modelled by the `CallResult.panic` outcome.

* the `socket_stream_bridge` event loop from `src/main.rs` lines 146–208,
  modelled as a state machine consuming readiness events; the data each
  ready descriptor would deliver is carried on the event, and the bytes the
  loop writes to the child's stdin, to the connected client and to the
  process's stdout are accumulated in logs.
-/

/-- State of `FlipBuffer<T, N>` (src/main.rs lines 23–29): two owned pages,
a readable window `[read_cursor, read_max)` inside `read_page` and a write
position `write_cursor` inside `write_page`. -/
structure FlipBuffer (α : Type) where
  read_page : List α
  write_page : List α
  read_cursor : Nat
  read_max : Nat
  write_cursor : Nat
deriving DecidableEq

/-- `FlipBuffer::new` (lines 33–47): both pages hold `N` copies of the
default element and all cursors are zero. -/
def FlipBuffer.new (N : Nat) (d : α) : FlipBuffer α :=
  { read_page := List.replicate N d
    write_page := List.replicate N d
    read_cursor := 0
    read_max := 0
    write_cursor := 0 }

/-- `FlipBuffer::flip_buffers` (lines 55–61): the readable window becomes
`[0, write_cursor)` of the old write page, the write cursor resets, and the
two pages swap roles. -/
def FlipBuffer.flip_buffers (b : FlipBuffer α) : FlipBuffer α :=
  { read_page := b.write_page
    write_page := b.read_page
    read_cursor := 0
    read_max := b.write_cursor
    write_cursor := 0 }

/-- The entry check of `with_read` (line 70): flip when the readable window
is exhausted and the write page holds unflushed data. -/
def FlipBuffer.readEntry (b : FlipBuffer α) : FlipBuffer α :=
  if b.read_cursor = b.read_max ∧ 0 < b.write_cursor then b.flip_buffers else b

/-- The slice `read_page[read_cursor..read_max]` handed to a read callback
(line 75). -/
def FlipBuffer.readSlice (b : FlipBuffer α) : List α :=
  (b.read_page.drop b.read_cursor).take (b.read_max - b.read_cursor)

/-- The entry check of `with_write` (line 96): flip when the write page is
full and the readable window is fully drained. -/
def FlipBuffer.writeEntry (N : Nat) (b : FlipBuffer α) : FlipBuffer α :=
  if b.write_cursor = N ∧ b.read_cursor = b.read_max then b.flip_buffers else b

/-- The slice `write_page[write_cursor..N]` handed to a write callback
(line 101). -/
def FlipBuffer.writeSlice (N : Nat) (b : FlipBuffer α) : List α :=
  (b.write_page.drop b.write_cursor).take (N - b.write_cursor)

/-- Outcome of a `with_read`/`with_write` call: the Rust method panics,
returns `Ok(n)`, or returns `Err(e)`; the non-panic outcomes carry the
updated buffer. -/
inductive CallResult (E α : Type) where
  | panic
  | ok (n : Nat) (b : FlipBuffer α)
  | err (e : E) (b : FlipBuffer α)
deriving DecidableEq

/-- `FlipBuffer::with_read` (lines 69–87). -/
def FlipBuffer.with_read (b : FlipBuffer α) (f : List α → Except E Nat) :
    CallResult E α :=
  let b1 := b.readEntry
  let readable := b1.read_max - b1.read_cursor
  match f b1.readSlice with
  | .ok was_read =>
      if readable < was_read then .panic
      else .ok was_read { b1 with read_cursor := b1.read_cursor + was_read }
  | .error e => .err e b1

/-- `FlipBuffer::with_write` (lines 95–113).  The callback returns the
count it reports together with the new contents of the offered slice. -/
def FlipBuffer.with_write (N : Nat) (b : FlipBuffer α)
    (f : List α → Except E (Nat × List α)) : CallResult E α :=
  let b1 := b.writeEntry N
  let writable := N - b1.write_cursor
  match f (b1.writeSlice N) with
  | .ok (was_written, out) =>
      if writable < was_written then .panic
      else .ok was_written
        { b1 with
          write_page := b1.write_page.take b1.write_cursor ++ out
          write_cursor := b1.write_cursor + was_written }
  | .error e => .err e b1

/-- The structural invariant of a capacity-`N` buffer:
`read_cursor ≤ read_max ≤ N`, `write_cursor ≤ N`, both pages of length `N`. -/
def FlipBuffer.wf (N : Nat) (b : FlipBuffer α) : Prop :=
  b.read_cursor ≤ b.read_max ∧ b.read_max ≤ N ∧ b.write_cursor ≤ N ∧
    b.read_page.length = N ∧ b.write_page.length = N

instance (N : Nat) (b : FlipBuffer α) : Decidable (b.wf N) := by
  unfold FlipBuffer.wf; infer_instance

/-- The elements logically queued in the buffer: the unread part of the
readable window followed by the elements written but not yet flipped. -/
def FlipBuffer.pending (b : FlipBuffer α) : List α :=
  b.readSlice ++ b.write_page.take b.write_cursor

theorem flip_wf {N : Nat} {b : FlipBuffer α} (h : b.wf N) :
    b.flip_buffers.wf N := by
  obtain ⟨h1, h2, h3, h4, h5⟩ := h
  exact ⟨Nat.zero_le _, h3, Nat.zero_le _, h5, h4⟩

theorem flip_pending {b : FlipBuffer α} (h : b.read_cursor = b.read_max) :
    b.flip_buffers.pending = b.pending := by
  simp [FlipBuffer.pending, FlipBuffer.readSlice, FlipBuffer.flip_buffers, h]

theorem readEntry_wf {N : Nat} {b : FlipBuffer α} (h : b.wf N) :
    b.readEntry.wf N := by
  unfold FlipBuffer.readEntry
  split
  · exact flip_wf h
  · exact h

theorem readEntry_pending (b : FlipBuffer α) :
    b.readEntry.pending = b.pending := by
  unfold FlipBuffer.readEntry
  split
  · exact flip_pending (by tauto)
  · rfl

theorem writeEntry_wf {N : Nat} {b : FlipBuffer α} (h : b.wf N) :
    (b.writeEntry N).wf N := by
  unfold FlipBuffer.writeEntry
  split
  · exact flip_wf h
  · exact h

theorem writeEntry_pending (N : Nat) (b : FlipBuffer α) :
    (b.writeEntry N).pending = b.pending := by
  unfold FlipBuffer.writeEntry
  split
  · exact flip_pending (by tauto)
  · rfl

theorem new_wf (N : Nat) (d : α) : (FlipBuffer.new N d).wf N := by
  simp [FlipBuffer.new, FlipBuffer.wf]

theorem new_pending (N : Nat) (d : α) : (FlipBuffer.new N d).pending = [] := by
  simp [FlipBuffer.new, FlipBuffer.pending, FlipBuffer.readSlice]

theorem readSlice_length {N : Nat} {b : FlipBuffer α} (hwf : b.wf N) :
    b.readSlice.length = b.read_max - b.read_cursor := by
  obtain ⟨h1, h2, h3, h4, h5⟩ := hwf
  unfold FlipBuffer.readSlice
  rw [List.length_take, List.length_drop, h4]
  omega

theorem writeSlice_length {N : Nat} {b : FlipBuffer α} (hwf : b.wf N) :
    (b.writeSlice N).length = N - b.write_cursor := by
  obtain ⟨h1, h2, h3, h4, h5⟩ := hwf
  unfold FlipBuffer.writeSlice
  rw [List.length_take, List.length_drop, h5, Nat.min_self]

theorem with_read_ok_inv {E α : Type} {b b' : FlipBuffer α}
    {f : List α → Except E Nat} {n : Nat} (h : b.with_read f = .ok n b') :
    f b.readEntry.readSlice = .ok n ∧
    n ≤ b.readEntry.read_max - b.readEntry.read_cursor ∧
    b' = { b.readEntry with read_cursor := b.readEntry.read_cursor + n } := by
  simp only [FlipBuffer.with_read] at h
  split at h
  · split at h
    · exact absurd h (by simp)
    · rename_i was_read heq hlt
      simp only [CallResult.ok.injEq] at h
      obtain ⟨rfl, hb⟩ := h
      exact ⟨heq, Nat.not_lt.mp hlt, hb.symm⟩
  · exact absurd h (by simp)

theorem with_write_ok_inv {E α : Type} {N : Nat} {b b' : FlipBuffer α}
    {g : List α → Except E (Nat × List α)} {n : Nat}
    (h : b.with_write N g = .ok n b') :
    ∃ out, g ((b.writeEntry N).writeSlice N) = .ok (n, out) ∧
      n ≤ N - (b.writeEntry N).write_cursor ∧
      b' = { b.writeEntry N with
             write_page :=
               (b.writeEntry N).write_page.take (b.writeEntry N).write_cursor ++ out
             write_cursor := (b.writeEntry N).write_cursor + n } := by
  simp only [FlipBuffer.with_write] at h
  split at h
  · split at h
    · exact absurd h (by simp)
    · rename_i was_written out heq hlt
      simp only [CallResult.ok.injEq] at h
      obtain ⟨rfl, hb⟩ := h
      exact ⟨out, heq, Nat.not_lt.mp hlt, hb.symm⟩
  · exact absurd h (by simp)

theorem read_adv_wf {N : Nat} {b1 : FlipBuffer α} {k : Nat} (hwf : b1.wf N)
    (hk : k ≤ b1.read_max - b1.read_cursor) :
    FlipBuffer.wf N { b1 with read_cursor := b1.read_cursor + k } := by
  obtain ⟨h1, h2, h3, h4, h5⟩ := hwf
  refine ⟨?_, h2, h3, h4, h5⟩
  show b1.read_cursor + k ≤ b1.read_max
  omega

theorem slice_chunk {α : Type} (L : List α) (n k : Nat) :
    L.take n = (L.take n).take k ++ (L.drop k).take (n - k) := by
  conv_lhs => rw [← List.take_append_drop k (L.take n)]
  rw [List.drop_take]

theorem read_adv_pending (b1 : FlipBuffer α) (k : Nat) :
    b1.pending = b1.readSlice.take k ++
      FlipBuffer.pending { b1 with read_cursor := b1.read_cursor + k } := by
  unfold FlipBuffer.pending FlipBuffer.readSlice
  simp only
  rw [← List.append_assoc]
  congr 1
  conv_lhs => rw [slice_chunk (b1.read_page.drop b1.read_cursor)
    (b1.read_max - b1.read_cursor) k]
  rw [List.drop_drop, Nat.sub_sub]

theorem write_adv_wf {N : Nat} {b1 : FlipBuffer α} {n : Nat} {out : List α}
    (hwf : b1.wf N) (hn : n ≤ N - b1.write_cursor)
    (hout : out.length = N - b1.write_cursor) :
    FlipBuffer.wf N { b1 with
      write_page := b1.write_page.take b1.write_cursor ++ out
      write_cursor := b1.write_cursor + n } := by
  obtain ⟨h1, h2, h3, h4, h5⟩ := hwf
  refine ⟨h1, h2, ?_, h4, ?_⟩
  · show b1.write_cursor + n ≤ N
    omega
  · show (b1.write_page.take b1.write_cursor ++ out).length = N
    rw [List.length_append, List.length_take, h5, hout]
    omega

theorem write_adv_pending {N : Nat} {b1 : FlipBuffer α} (hwf : b1.wf N)
    (n : Nat) (out : List α) :
    FlipBuffer.pending { b1 with
      write_page := b1.write_page.take b1.write_cursor ++ out
      write_cursor := b1.write_cursor + n }
      = b1.pending ++ out.take n := by
  obtain ⟨h1, h2, h3, h4, h5⟩ := hwf
  unfold FlipBuffer.pending FlipBuffer.readSlice
  simp only
  rw [List.append_assoc]
  congr 1
  have htk : (b1.write_page.take b1.write_cursor).take (b1.write_cursor + n) =
      b1.write_page.take b1.write_cursor :=
    List.take_of_length_le (by rw [List.length_take, h5, Nat.min_eq_left h3]; omega)
  rw [List.take_append_eq_append_take, List.length_take, h5, Nat.min_eq_left h3,
    htk, Nat.add_sub_cancel_left]

/-- A consumer callback that reports consuming `k` elements, as the sinks'
`write` calls in the drain steps do. -/
def readCb (α : Type) (k : Nat) : List α → Except Empty Nat := fun _ => .ok k

/-- A producer callback that copies `data` over the front of the offered
slice, leaves the rest of the slice unchanged and reports the length of
`data`, as a successful `read` into the slice does. -/
def writeCb (data : List α) : List α → Except Empty (Nat × List α) :=
  fun s => .ok (data.length, data ++ s.drop data.length)

/-- One client call against a `FlipBuffer`: a `with_read` whose callback
reports consuming `k` elements, or a `with_write` whose callback deposits
`data`. -/
inductive BufOp (α : Type) where
  | read (k : Nat)
  | write (data : List α)

/-- Runs one `BufOp` on a buffer, accumulating the elements handed out to
read callbacks and the elements deposited by write callbacks.  `none` models
the `panic!` of a callback reporting more than the offered slice. -/
def stepOp (N : Nat) (s : FlipBuffer α × List α × List α) :
    BufOp α → Option (FlipBuffer α × List α × List α)
  | .read k =>
      match s.1.with_read (readCb α k) with
      | .ok n b' => some (b', s.2.1 ++ s.1.readEntry.readSlice.take n, s.2.2)
      | .panic => none
      | .err e _ => e.elim
  | .write data =>
      match s.1.with_write N (writeCb data) with
      | .ok _ b' => some (b', s.2.1, s.2.2 ++ data)
      | .panic => none
      | .err e _ => e.elim

/-- Runs a sequence of `BufOp`s; `none` as soon as any call panics. -/
def runOps (N : Nat) (ops : List (BufOp α)) (s : FlipBuffer α × List α × List α) :
    Option (FlipBuffer α × List α × List α) :=
  match ops with
  | [] => some s
  | op :: rest =>
      match stepOp N s op with
      | some s' => runOps N rest s'
      | none => none

theorem stepOp_read_inv {N : Nat} {s s' : FlipBuffer α × List α × List α} {k : Nat}
    (h : stepOp N s (.read k) = some s') :
    k ≤ s.1.readEntry.read_max - s.1.readEntry.read_cursor ∧
    s' = ({ s.1.readEntry with read_cursor := s.1.readEntry.read_cursor + k },
          s.2.1 ++ s.1.readEntry.readSlice.take k, s.2.2) := by
  simp only [stepOp] at h
  split at h
  · rename_i n b' heq
    obtain ⟨hf, hk, hb⟩ := with_read_ok_inv heq
    simp only [readCb, Except.ok.injEq] at hf
    subst hf
    simp only [Option.some.injEq] at h
    exact ⟨hk, by rw [← h, hb]⟩
  · exact absurd h (by simp)
  · rename_i e b' heq
    exact e.elim

theorem stepOp_write_inv {N : Nat} {s s' : FlipBuffer α × List α × List α}
    {data : List α} (h : stepOp N s (.write data) = some s') :
    data.length ≤ N - (s.1.writeEntry N).write_cursor ∧
    s' = ({ s.1.writeEntry N with
            write_page :=
              (s.1.writeEntry N).write_page.take (s.1.writeEntry N).write_cursor ++
                (data ++ ((s.1.writeEntry N).writeSlice N).drop data.length)
            write_cursor := (s.1.writeEntry N).write_cursor + data.length },
          s.2.1, s.2.2 ++ data) := by
  simp only [stepOp] at h
  split at h
  · rename_i n b' heq
    obtain ⟨out, hf, hn, hb⟩ := with_write_ok_inv heq
    simp only [writeCb, Except.ok.injEq, Prod.mk.injEq] at hf
    obtain ⟨hn', hout⟩ := hf
    subst hn'
    subst hout
    simp only [Option.some.injEq] at h
    exact ⟨hn, by rw [← h, hb]⟩
  · exact absurd h (by simp)
  · rename_i e b' heq
    exact e.elim

theorem stepOp_wf {N : Nat} {s s' : FlipBuffer α × List α × List α} {op : BufOp α}
    (hwf : s.1.wf N) (h : stepOp N s op = some s') : s'.1.wf N := by
  cases op with
  | read k =>
      obtain ⟨hk, rfl⟩ := stepOp_read_inv h
      exact read_adv_wf (readEntry_wf hwf) hk
  | write data =>
      obtain ⟨hd, rfl⟩ := stepOp_write_inv h
      refine write_adv_wf (writeEntry_wf hwf) hd ?_
      rw [List.length_append, List.length_drop, writeSlice_length (writeEntry_wf hwf)]
      omega

theorem stepOp_inv {N : Nat} {s s' : FlipBuffer α × List α × List α} {op : BufOp α}
    (hwf : s.1.wf N) (hinv : s.2.2 = s.2.1 ++ s.1.pending)
    (h : stepOp N s op = some s') :
    s'.1.wf N ∧ s'.2.2 = s'.2.1 ++ s'.1.pending := by
  refine ⟨stepOp_wf hwf h, ?_⟩
  cases op with
  | read k =>
      obtain ⟨hk, rfl⟩ := stepOp_read_inv h
      simp only
      rw [hinv, ← readEntry_pending s.1, read_adv_pending s.1.readEntry k,
        List.append_assoc]
  | write data =>
      obtain ⟨hd, rfl⟩ := stepOp_write_inv h
      simp only
      rw [hinv, ← writeEntry_pending N s.1,
        write_adv_pending (writeEntry_wf hwf) data.length
          (data ++ ((s.1.writeEntry N).writeSlice N).drop data.length),
        List.take_append_eq_append_take, Nat.sub_self, List.take_length,
        List.take_zero, List.append_nil, List.append_assoc]

theorem runOps_inv {N : Nat} :
    ∀ (ops : List (BufOp α)) (s s' : FlipBuffer α × List α × List α),
      s.1.wf N → s.2.2 = s.2.1 ++ s.1.pending → runOps N ops s = some s' →
      s'.1.wf N ∧ s'.2.2 = s'.2.1 ++ s'.1.pending := by
  intro ops
  induction ops with
  | nil =>
      intro s s' hwf hinv h
      simp only [runOps, Option.some.injEq] at h
      rw [← h]
      exact ⟨hwf, hinv⟩
  | cons op rest ih =>
      intro s s' hwf hinv h
      unfold runOps at h
      split at h
      · rename_i s1 hstep
        obtain ⟨hwf1, hinv1⟩ := stepOp_inv hwf hinv hstep
        exact ih s1 s' hwf1 hinv1 h
      · exact absurd h (by simp)

theorem with_write_writeCb {N : Nat} {b : FlipBuffer α} {data : List α}
    (hd : data.length ≤ N - (b.writeEntry N).write_cursor) :
    b.with_write N (writeCb data) = .ok data.length
      { b.writeEntry N with
        write_page :=
          (b.writeEntry N).write_page.take (b.writeEntry N).write_cursor ++
            (data ++ ((b.writeEntry N).writeSlice N).drop data.length)
        write_cursor := (b.writeEntry N).write_cursor + data.length } := by
  simp only [FlipBuffer.with_write, writeCb]
  rw [if_neg (by omega)]

theorem stepOp_write_eq {N : Nat} {b : FlipBuffer α} {data : List α}
    (rs ws : List α) (hd : data.length ≤ N - (b.writeEntry N).write_cursor) :
    stepOp N (b, rs, ws) (.write data) =
      some ({ b.writeEntry N with
              write_page :=
                (b.writeEntry N).write_page.take (b.writeEntry N).write_cursor ++
                  (data ++ ((b.writeEntry N).writeSlice N).drop data.length)
              write_cursor := (b.writeEntry N).write_cursor + data.length },
            rs, ws ++ data) := by
  simp only [stepOp, with_write_writeCb hd]

theorem writes_only {N : Nat} :
    ∀ (datas : List (List α)) (b : FlipBuffer α) (rs ws : List α),
      b.wf N → b.read_cursor = 0 → b.read_max = 0 →
      (∀ d ∈ datas, d ≠ []) →
      b.write_cursor + (datas.map List.length).sum ≤ N →
      ∃ b2, runOps N (datas.map BufOp.write) (b, rs, ws) =
          some (b2, rs, ws ++ datas.flatten) ∧
        b2.write_cursor = b.write_cursor + (datas.map List.length).sum ∧
        b2.read_cursor = 0 ∧ b2.read_max = 0 ∧ b2.wf N := by
  intro datas
  induction datas with
  | nil =>
      intro b rs ws hwf hrc hrm hne hsum
      exact ⟨b, by simp [runOps], by simp, hrc, hrm, hwf⟩
  | cons data rest ih =>
      intro b rs ws hwf hrc hrm hne hsum
      have hd0 : data ≠ [] := hne data (List.mem_cons_self data rest)
      have hdl : 0 < data.length := List.length_pos.mpr hd0
      simp only [List.map_cons, List.sum_cons] at hsum
      have hwlt : b.write_cursor < N := by omega
      have hentry : b.writeEntry N = b := by
        unfold FlipBuffer.writeEntry
        rw [if_neg]
        rintro ⟨h1, _⟩
        omega
      have hd : data.length ≤ N - (b.writeEntry N).write_cursor := by
        rw [hentry]; omega
      have hstep := stepOp_write_eq rs ws hd
      rw [hentry] at hstep
      have hout : (data ++ ((b.writeSlice N)).drop data.length).length =
          N - b.write_cursor := by
        rw [List.length_append, List.length_drop, writeSlice_length hwf]
        omega
      have hn2 : data.length ≤ N - b.write_cursor := by omega
      have hwf' := write_adv_wf hwf hn2 hout
      obtain ⟨b2, hrun, hwc2, hrc2, hrm2, hwf2⟩ :=
        ih { b with
              write_page := b.write_page.take b.write_cursor ++
                (data ++ ((b.writeSlice N)).drop data.length)
              write_cursor := b.write_cursor + data.length }
          rs (ws ++ data) hwf' hrc hrm (fun d hd => hne d (List.mem_cons_of_mem _ hd))
          (by show b.write_cursor + data.length + (rest.map List.length).sum ≤ N; omega)
      refine ⟨b2, ?_, ?_, hrc2, hrm2, hwf2⟩
      · simp only [List.map_cons, runOps, hstep, List.flatten_cons]
        rw [hrun, List.append_assoc]
      · rw [hwc2]
        show b.write_cursor + data.length + (rest.map List.length).sum =
          b.write_cursor + (data.length + (rest.map List.length).sum)
        omega

/-- C1: over any sequence of `with_read`/`with_write` calls on a fresh
`FlipBuffer` whose callbacks report at most the offered slice length (a
panicking trace yields `none`), the written elements equal the consumed
elements followed by the elements still pending in the buffer; hence once
drained the reads equal the writes, and the slice the next read would
expose is exactly the oldest still-pending written data — never stale
bytes, never data beyond `read_max`. -/
theorem c1_buffer_conservation {N : Nat} {ops : List (BufOp Nat)}
    {b' : FlipBuffer Nat} {rs ws : List Nat}
    (h : runOps N ops (FlipBuffer.new N 0, [], []) = some (b', rs, ws)) :
    ws = rs ++ b'.pending ∧ (b'.pending = [] → ws = rs) ∧
    b'.readEntry.readSlice = (ws.drop rs.length).take b'.readEntry.readSlice.length := by
  have hinv := runOps_inv ops (FlipBuffer.new N 0, [], []) (b', rs, ws)
    (new_wf N 0) (by simp [new_pending]) h
  have heq : ws = rs ++ b'.pending := hinv.2
  refine ⟨heq, ?_, ?_⟩
  · intro hp
    rw [heq, hp, List.append_nil]
  · rw [heq, List.drop_left, ← readEntry_pending b']
    exact (List.take_left _ _).symm

theorem c1_buffer_conservation_wit :
    runOps 2 [BufOp.write [5], BufOp.read 1] (FlipBuffer.new 2 0, [], []) =
      some (⟨[5, 0], [0, 0], 1, 1, 0⟩, [5], [5]) ∧
    ([5] : List Nat) = [5] ++ FlipBuffer.pending ⟨[5, 0], [0, 0], 1, 1, 0⟩ := by
  have h : runOps 2 [BufOp.write [5], BufOp.read 1] (FlipBuffer.new 2 0, [], []) =
      some (⟨[5, 0], [0, 0], 1, 1, 0⟩, [5], [5]) := by decide
  exact ⟨h, (c1_buffer_conservation h).1⟩

/-- C2: from a fresh buffer, nonempty writes totalling at most `N` elements
are all accepted in full with no reader involvement and no flip (the read
window stays `[0, 0)`); and once `write_cursor = N`, a writer is offered no
space while the readable window is undrained (a nonempty write panics), and
exactly when the readable window is drained the entry check of `with_write`
flips, after which `N` fresh elements of space are offered. -/
theorem c2_capacity_gate (N : Nat) :
    (∀ datas : List (List Nat), (∀ d ∈ datas, d ≠ []) →
      (datas.map List.length).sum ≤ N →
      ∃ b', runOps N (datas.map BufOp.write) (FlipBuffer.new N 0, [], []) =
          some (b', [], datas.flatten) ∧
        b'.write_cursor = (datas.map List.length).sum ∧ b'.read_max = 0) ∧
    (∀ b : FlipBuffer Nat, b.wf N → b.write_cursor = N →
      (b.read_cursor ≠ b.read_max →
        (b.writeSlice N).length = 0 ∧ b.writeEntry N = b ∧
        ∀ data : List Nat, data ≠ [] → b.with_write N (writeCb data) = .panic) ∧
      (b.read_cursor = b.read_max →
        b.writeEntry N = b.flip_buffers ∧
        ((b.writeEntry N).writeSlice N).length = N)) := by
  constructor
  · intro datas hne hsum
    obtain ⟨b2, hrun, hwc, hrc, hrm, hwf⟩ :=
      writes_only datas (FlipBuffer.new N 0) [] [] (new_wf N 0) rfl rfl hne
        (by simpa [FlipBuffer.new] using hsum)
    refine ⟨b2, ?_, ?_, hrm⟩
    · simpa using hrun
    · simpa [FlipBuffer.new] using hwc
  · intro b hwf hwc
    constructor
    · intro hne
      have hentry : b.writeEntry N = b := by
        unfold FlipBuffer.writeEntry
        rw [if_neg]
        rintro ⟨_, h2⟩
        exact hne h2
      refine ⟨?_, hentry, ?_⟩
      · rw [writeSlice_length hwf, hwc, Nat.sub_self]
      · intro data hd0
        have hdl : 0 < data.length := List.length_pos.mpr hd0
        simp only [FlipBuffer.with_write, writeCb, hentry]
        rw [if_pos (by omega)]
    · intro hrd
      have hentry : b.writeEntry N = b.flip_buffers := by
        unfold FlipBuffer.writeEntry
        rw [if_pos ⟨hwc, hrd⟩]
      refine ⟨hentry, ?_⟩
      rw [hentry, writeSlice_length (flip_wf hwf)]
      show N - 0 = N
      omega

/-- Witness buffer for C2: capacity 1, write page full, readable window
undrained. -/
def fullBuf : FlipBuffer Nat := ⟨[7], [9], 0, 1, 1⟩

theorem c2_capacity_gate_wit :
    FlipBuffer.wf 1 fullBuf ∧ fullBuf.write_cursor = 1 ∧
    fullBuf.read_cursor ≠ fullBuf.read_max ∧
    fullBuf.with_write 1 (writeCb [3]) = CallResult.panic := by
  have h := ((c2_capacity_gate 1).2 fullBuf (by decide) rfl).1 (by decide)
  exact ⟨by decide, rfl, by decide, h.2.2 [3] (by decide)⟩

/-- C4: the cursor invariants `read_cursor ≤ read_max ≤ N` and
`write_cursor ≤ N` (together with both pages having length `N`) hold for a
fresh buffer, are preserved by `flip_buffers`, and are preserved by every
non-panicking `with_read`/`with_write` call. -/
theorem c4_cursor_invariants (α : Type) :
    (∀ (N : Nat) (d : α), (FlipBuffer.new N d).wf N) ∧
    (∀ (N : Nat) (b : FlipBuffer α), b.wf N → b.flip_buffers.wf N) ∧
    (∀ (N : Nat) (s s' : FlipBuffer α × List α × List α) (op : BufOp α),
      s.1.wf N → stepOp N s op = some s' → s'.1.wf N) :=
  ⟨fun N d => new_wf N d, fun _ _ h => flip_wf h, fun _ _ _ _ hwf h => stepOp_wf hwf h⟩

theorem c4_cursor_invariants_wit :
    stepOp 1 (FlipBuffer.new 1 0, [], []) (BufOp.write [5]) =
      some (⟨[0], [5], 0, 0, 1⟩, [], [5]) ∧
    FlipBuffer.wf 1 ⟨[0], [5], 0, 0, 1⟩ := by
  have h : stepOp 1 (FlipBuffer.new 1 (0 : Nat), [], []) (BufOp.write [5]) =
      some (⟨[0], [5], 0, 0, 1⟩, [], [5]) := by decide
  exact ⟨h, (c4_cursor_invariants Nat).2.2 1 _ _ _ (by decide) h⟩

/-- C3: `with_read` flips exactly when the readable window is empty and the
write page holds unflushed data, after which the readable window is
`[0, old write_cursor)` over the swapped page and writing restarts at
offset 0; `with_write` flips exactly when the write page is full and the
readable window is drained; in every other state neither call flips and
each exposes the remaining (possibly empty) window. -/
theorem c3_flip_conditions (N : Nat) (b : FlipBuffer Nat) (h : b.wf N) :
    ((b.read_cursor = b.read_max ∧ 0 < b.write_cursor →
        b.with_read (readCb Nat 0) = .ok 0
          { read_page := b.write_page, write_page := b.read_page,
            read_cursor := 0, read_max := b.write_cursor, write_cursor := 0 }) ∧
      (¬(b.read_cursor = b.read_max ∧ 0 < b.write_cursor) →
        b.with_read (readCb Nat 0) = .ok 0 b ∧
        b.readSlice.length = b.read_max - b.read_cursor)) ∧
    ((b.write_cursor = N ∧ b.read_cursor = b.read_max →
        b.with_write N (writeCb []) = .ok 0
          { read_page := b.write_page, write_page := b.read_page,
            read_cursor := 0, read_max := b.write_cursor, write_cursor := 0 }) ∧
      (¬(b.write_cursor = N ∧ b.read_cursor = b.read_max) →
        b.with_write N (writeCb []) = .ok 0 b ∧
        (b.writeSlice N).length = N - b.write_cursor)) := by
  obtain ⟨h1, h2, h3, h4, h5⟩ := h
  refine ⟨⟨?_, ?_⟩, ⟨?_, ?_⟩⟩
  · intro hc
    simp [FlipBuffer.with_read, FlipBuffer.readEntry, if_pos hc, readCb,
      FlipBuffer.flip_buffers]
  · intro hc
    refine ⟨?_, readSlice_length ⟨h1, h2, h3, h4, h5⟩⟩
    simp [FlipBuffer.with_read, FlipBuffer.readEntry, if_neg hc, readCb]
  · intro hc
    simp only [FlipBuffer.with_write, FlipBuffer.writeEntry, if_pos hc, writeCb,
      FlipBuffer.flip_buffers, FlipBuffer.writeSlice]
    rw [if_neg (by simp)]
    simp [List.take_of_length_le (le_of_eq h4)]
  · intro hc
    refine ⟨?_, writeSlice_length ⟨h1, h2, h3, h4, h5⟩⟩
    simp only [FlipBuffer.with_write, FlipBuffer.writeEntry, if_neg hc, writeCb,
      FlipBuffer.writeSlice]
    rw [if_neg (by simp)]
    have hslice : (b.write_page.drop b.write_cursor).take (N - b.write_cursor) =
        b.write_page.drop b.write_cursor :=
      List.take_of_length_le (by rw [List.length_drop, h5])
    simp [hslice, List.take_append_drop]

/-- Witness buffer for C3: readable window empty at `[1, 1)`, write page
holding 2 unflushed elements. -/
def b3val : FlipBuffer Nat := ⟨[1, 2], [3, 4], 1, 1, 2⟩

theorem c3_flip_conditions_wit :
    FlipBuffer.wf 2 b3val ∧
    b3val.with_read (readCb Nat 0) = CallResult.ok 0 ⟨[3, 4], [1, 2], 0, 2, 0⟩ := by
  exact ⟨by decide, (c3_flip_conditions 2 b3val (by decide)).1.1 ⟨rfl, by decide⟩⟩

theorem with_read_eq_ok {b : FlipBuffer α} {f : List α → Except E Nat} {m : Nat}
    (hf : f b.readEntry.readSlice = Except.ok m) :
    b.with_read f =
      if b.readEntry.read_max - b.readEntry.read_cursor < m then CallResult.panic
      else .ok m { b.readEntry with read_cursor := b.readEntry.read_cursor + m } := by
  simp only [FlipBuffer.with_read, hf]

theorem with_read_eq_error {b : FlipBuffer α} {f : List α → Except E Nat} {e : E}
    (hf : f b.readEntry.readSlice = Except.error e) :
    b.with_read f = .err e b.readEntry := by
  simp only [FlipBuffer.with_read, hf]

theorem with_write_eq_ok {N : Nat} {b : FlipBuffer α}
    {g : List α → Except E (Nat × List α)} {m : Nat} {out : List α}
    (hg : g ((b.writeEntry N).writeSlice N) = Except.ok (m, out)) :
    b.with_write N g =
      if N - (b.writeEntry N).write_cursor < m then CallResult.panic
      else .ok m { b.writeEntry N with
        write_page := (b.writeEntry N).write_page.take (b.writeEntry N).write_cursor ++ out
        write_cursor := (b.writeEntry N).write_cursor + m } := by
  simp only [FlipBuffer.with_write, hg]

theorem with_write_eq_error {N : Nat} {b : FlipBuffer α}
    {g : List α → Except E (Nat × List α)} {e : E}
    (hg : g ((b.writeEntry N).writeSlice N) = Except.error e) :
    b.with_write N g = .err e (b.writeEntry N) := by
  simp only [FlipBuffer.with_write, hg]

/-- C9: a `with_read`/`with_write` call panics exactly when its callback
reports strictly more than the length of the slice it was offered; under the
precondition that the report never exceeds the offered length the panic
branch is unreachable. -/
theorem c9_panic_iff_overreport (N : Nat) (E : Type) (b : FlipBuffer Nat)
    (f : List Nat → Except E Nat) (g : List Nat → Except E (Nat × List Nat))
    (h : b.wf N) :
    (b.with_read f = .panic ↔
      ∃ n, f b.readEntry.readSlice = .ok n ∧ b.readEntry.readSlice.length < n) ∧
    (b.with_write N g = .panic ↔
      ∃ p, g ((b.writeEntry N).writeSlice N) = .ok p ∧
        ((b.writeEntry N).writeSlice N).length < p.1) ∧
    ((∀ n, f b.readEntry.readSlice = .ok n → n ≤ b.readEntry.readSlice.length) →
      b.with_read f ≠ .panic) ∧
    ((∀ p, g ((b.writeEntry N).writeSlice N) = .ok p →
        p.1 ≤ ((b.writeEntry N).writeSlice N).length) →
      b.with_write N g ≠ .panic) := by
  have hr : b.readEntry.readSlice.length =
      b.readEntry.read_max - b.readEntry.read_cursor :=
    readSlice_length (readEntry_wf h)
  have hw : ((b.writeEntry N).writeSlice N).length =
      N - (b.writeEntry N).write_cursor :=
    writeSlice_length (writeEntry_wf h)
  have hiff1 : b.with_read f = .panic ↔
      ∃ n, f b.readEntry.readSlice = .ok n ∧ b.readEntry.readSlice.length < n := by
    cases hf : f b.readEntry.readSlice with
    | ok m =>
        rw [with_read_eq_ok hf]
        by_cases hlt : b.readEntry.read_max - b.readEntry.read_cursor < m
        · rw [if_pos hlt]
          exact ⟨fun _ => ⟨m, rfl, by omega⟩, fun _ => rfl⟩
        · rw [if_neg hlt]
          constructor
          · intro hcon
            exact absurd hcon (by simp)
          · rintro ⟨n, hn, hl⟩
            obtain rfl : n = m := by
              injection hn with h'
              exact h'.symm
            exact absurd hl (by omega)
    | error e =>
        rw [with_read_eq_error hf]
        constructor
        · intro hcon
          exact absurd hcon (by simp)
        · rintro ⟨n, hn, _⟩
          exact absurd hn (by simp)
  have hiff2 : b.with_write N g = .panic ↔
      ∃ p, g ((b.writeEntry N).writeSlice N) = .ok p ∧
        ((b.writeEntry N).writeSlice N).length < p.1 := by
    cases hg : g ((b.writeEntry N).writeSlice N) with
    | ok p =>
        obtain ⟨m, out⟩ := p
        rw [with_write_eq_ok hg]
        by_cases hlt : N - (b.writeEntry N).write_cursor < m
        · rw [if_pos hlt]
          refine ⟨fun _ => ⟨(m, out), rfl, ?_⟩, fun _ => rfl⟩
          show ((b.writeEntry N).writeSlice N).length < m
          omega
        · rw [if_neg hlt]
          constructor
          · intro hcon
            exact absurd hcon (by simp)
          · rintro ⟨q, hq, hl⟩
            obtain rfl : q = (m, out) := by
              injection hq with h'
              exact h'.symm
            have hl' : ((b.writeEntry N).writeSlice N).length < m := hl
            exact absurd hl' (by omega)
    | error e =>
        rw [with_write_eq_error hg]
        constructor
        · intro hcon
          exact absurd hcon (by simp)
        · rintro ⟨q, hq, _⟩
          exact absurd hq (by simp)
  refine ⟨hiff1, hiff2, ?_, ?_⟩
  · intro hle hp
    obtain ⟨n, hn, hlt⟩ := hiff1.mp hp
    exact absurd (hle n hn) (by omega)
  · intro hle hp
    obtain ⟨q, hq, hlt⟩ := hiff2.mp hp
    exact absurd (hle q hq) (by omega)

theorem c9_panic_iff_overreport_wit :
    FlipBuffer.wf 1 (FlipBuffer.new 1 0) ∧
    (FlipBuffer.new 1 0).with_read (fun _ => (Except.ok 5 : Except Unit Nat)) =
      CallResult.panic := by
  refine ⟨by decide, ?_⟩
  exact (c9_panic_iff_overreport 1 Unit (FlipBuffer.new 1 0)
    (fun _ => Except.ok 5) (fun _ => Except.ok (0, [])) (by decide)).1.mpr
    ⟨5, rfl, by decide⟩

/-- C10: when the callback fails, `with_read`/`with_write` return the same
error and the cursors are not advanced relative to the state the callback
saw — but an entry flip that fired before the callback ran is not undone,
so the returned buffer can differ from the pre-call one (while carrying the
same pending data). -/
theorem c10_error_passthrough (E : Type) :
    (∀ (b : FlipBuffer Nat) (f : List Nat → Except E Nat) (e : E),
      f b.readEntry.readSlice = .error e → b.with_read f = .err e b.readEntry) ∧
    (∀ (N : Nat) (b : FlipBuffer Nat)
        (g : List Nat → Except E (Nat × List Nat)) (e : E),
      g ((b.writeEntry N).writeSlice N) = .error e →
      b.with_write N g = .err e (b.writeEntry N)) ∧
    (∃ b : FlipBuffer Nat, b.readEntry ≠ b ∧ b.readEntry.pending = b.pending) := by
  refine ⟨?_, ?_, ?_⟩
  · intro b f e hf
    simp only [FlipBuffer.with_read, hf]
  · intro N b g e hg
    simp only [FlipBuffer.with_write, hg]
  · exact ⟨⟨[1], [2], 0, 0, 1⟩, by decide, readEntry_pending _⟩

theorem c10_error_passthrough_wit :
    (⟨[1], [2], 0, 0, 1⟩ : FlipBuffer Nat).with_read
        (fun _ => (Except.error 3 : Except Nat Nat)) =
      CallResult.err 3 ⟨[2], [1], 0, 1, 0⟩ ∧
    (⟨[2], [1], 0, 1, 0⟩ : FlipBuffer Nat) ≠ ⟨[1], [2], 0, 0, 1⟩ := by
  exact ⟨(c10_error_passthrough Nat).1 ⟨[1], [2], 0, 0, 1⟩ _ 3 rfl, by decide⟩

/-- Buffer capacity used by `socket_stream_bridge` (src/main.rs line 170);
the bridge model below is parametric in the capacity, of which this is the
program's instantiation. -/
def BUFFER_BYTES : Nat := 32 * 1024

/-- State of the `socket_stream_bridge` event loop (src/main.rs lines
146–208): the optional active client, the two flip buffers, and logs of the
bytes written to the child's stdin, to the active client and to this
process's stdout.  `rejected` records connections accepted and immediately
dropped; `stopped` records that the `'events` loop was broken out of. -/
structure BridgeState (α : Type) where
  socket_client : Option Nat
  child_stdin_buf : FlipBuffer α
  child_stdouterr_buf : FlipBuffer α
  stdin_log : List α
  client_log : List α
  stdout_log : List α
  rejected : List Nat
  stopped : Bool
deriving DecidableEq

/-- The bridge state at the top of `socket_stream_bridge`: no client, both
buffers fresh (lines 154, 171–172). -/
def initBridge (N : Nat) (d : α) : BridgeState α :=
  { socket_client := none
    child_stdin_buf := FlipBuffer.new N d
    child_stdouterr_buf := FlipBuffer.new N d
    stdin_log := []
    client_log := []
    stdout_log := []
    rejected := []
    stopped := false }

/-- One readiness event as dispatched by the `target` comparisons (lines
177–197).  Each data-bearing event carries the bytes its descriptor has
available; `[]` models end-of-file. -/
inductive BridgeEv (α : Type) where
  | notify
  | child_stdout (data : List α)
  | child_stderr (data : List α)
  | listener (c : Nat)
  | clientData (data : List α)
deriving DecidableEq

/-- Callback modelling `source.read(buf)`: copies up to `buf.len()` elements
of the `data` the source has available over the front of the slice and
reports the count; `data = []` models end-of-file (0 returned). -/
def readIntoCb (data : List α) : List α → Except Empty (Nat × List α) :=
  fun s => .ok (min data.length s.length, data.take s.length ++ s.drop data.length)

/-- Callback modelling `sink.write(buf)`: the sink accepts up to `accept`
elements of the offered slice and reports how many it took. -/
def writerCb (α : Type) (accept : Nat) : List α → Except Empty Nat :=
  fun s => .ok (min accept s.length)

/-- Handles one non-notify readiness event (the `else if` chain of lines
180–197): child stdout/stderr fill the outbound buffer; the listener
accepts, immediately dropping the connection when a client is active;
any other readiness while a client is attached reads from the client into
the inbound buffer, clearing the client when 0 bytes were copied. -/
def stepEv (N : Nat) (s : BridgeState α) : BridgeEv α → BridgeState α
  | .notify => s
  | .child_stdout data =>
      match s.child_stdouterr_buf.with_write N (readIntoCb data) with
      | .ok _ b' => { s with child_stdouterr_buf := b' }
      | _ => s
  | .child_stderr data =>
      match s.child_stdouterr_buf.with_write N (readIntoCb data) with
      | .ok _ b' => { s with child_stdouterr_buf := b' }
      | _ => s
  | .listener c =>
      if s.socket_client.isSome then { s with rejected := s.rejected ++ [c] }
      else { s with socket_client := some c }
  | .clientData data =>
      match s.socket_client with
      | some _ =>
          match s.child_stdin_buf.with_write N (readIntoCb data) with
          | .ok copied b' =>
              { s with
                child_stdin_buf := b'
                socket_client := if copied = 0 then none else s.socket_client }
          | _ => s
      | none => s

/-- Processes the ready descriptors of one iteration in order (lines
176–198); on the shutdown notification the loop is broken immediately
(`break 'events`, line 179) and the remaining events are not processed. -/
def processEvents (N : Nat) (s : BridgeState α) : List (BridgeEv α) → BridgeState α
  | [] => s
  | .notify :: _ => { s with stopped := true }
  | ev :: rest => processEvents N (stepEv N s ev) rest

/-- The post-iteration drain (lines 200–204): flush the inbound buffer into
the child's stdin, then flush the outbound buffer into the active client if
one is present, else into this process's stdout.  `stdinAccept` and
`outAccept` are how many bytes the respective sinks accept. -/
def drainStep (N stdinAccept outAccept : Nat) (s : BridgeState α) : BridgeState α :=
  let s1 :=
    match s.child_stdin_buf.with_read (writerCb α stdinAccept) with
    | .ok n b' =>
        { s with
          child_stdin_buf := b'
          stdin_log := s.stdin_log ++ s.child_stdin_buf.readEntry.readSlice.take n }
    | _ => s
  match s1.socket_client with
  | some _ =>
      match s1.child_stdouterr_buf.with_read (writerCb α outAccept) with
      | .ok n b' =>
          { s1 with
            child_stdouterr_buf := b'
            client_log :=
              s1.client_log ++ s1.child_stdouterr_buf.readEntry.readSlice.take n }
      | _ => s1
  | none =>
      match s1.child_stdouterr_buf.with_read (writerCb α outAccept) with
      | .ok n b' =>
          { s1 with
            child_stdouterr_buf := b'
            stdout_log :=
              s1.stdout_log ++ s1.child_stdouterr_buf.readEntry.readSlice.take n }
      | _ => s1

/-- The environment input of one loop iteration: the ready events in the
order reported, and how many bytes the stdin and outbound sinks accept. -/
structure IterIn (α : Type) where
  events : List (BridgeEv α)
  stdinAccept : Nat
  outAccept : Nat

/-- One iteration of the `'events` loop (lines 174–205): process the ready
events, then — only if the shutdown notification was not observed — drain
both buffers.  A stopped state is final (the Rust loop has returned). -/
def bridgeIter (N : Nat) (s : BridgeState α) (it : IterIn α) : BridgeState α :=
  if s.stopped then s
  else
    let s1 := processEvents N s it.events
    if s1.stopped then s1 else drainStep N it.stdinAccept it.outAccept s1

/-- Runs the loop over a sequence of iteration inputs. -/
def runBridge (N : Nat) (s : BridgeState α) : List (IterIn α) → BridgeState α
  | [] => s
  | it :: rest => runBridge N (bridgeIter N s it) rest

theorem stepEv_stopped (N : Nat) (s : BridgeState α) (ev : BridgeEv α) :
    (stepEv N s ev).stopped = s.stopped := by
  cases ev <;> simp only [stepEv] <;> (repeat' split) <;> rfl

theorem processEvents_notify (N : Nat) :
    ∀ (evs₁ : List (BridgeEv α)) (s : BridgeState α) (evs₂ : List (BridgeEv α)),
      BridgeEv.notify ∉ evs₁ →
      processEvents N s (evs₁ ++ .notify :: evs₂) =
        { processEvents N s evs₁ with stopped := true } := by
  intro evs₁
  induction evs₁ with
  | nil => intro s evs₂ h; rfl
  | cons ev rest ih =>
      intro s evs₂ h
      have hr : BridgeEv.notify ∉ rest := fun hm => h (List.mem_cons_of_mem _ hm)
      cases ev with
      | notify => exact absurd (List.mem_cons_self _ _) h
      | child_stdout data => exact ih (stepEv N s (.child_stdout data)) evs₂ hr
      | child_stderr data => exact ih (stepEv N s (.child_stderr data)) evs₂ hr
      | listener c => exact ih (stepEv N s (.listener c)) evs₂ hr
      | clientData data => exact ih (stepEv N s (.clientData data)) evs₂ hr

theorem bridgeIter_stopped (N : Nat) (s : BridgeState α) (it : IterIn α)
    (h : s.stopped = true) : bridgeIter N s it = s := by
  simp [bridgeIter, h]

theorem runBridge_stopped (N : Nat) (s : BridgeState α) (h : s.stopped = true) :
    ∀ its, runBridge N s its = s := by
  intro its
  induction its with
  | nil => rfl
  | cons it rest ih =>
      show runBridge N (bridgeIter N s it) rest = s
      rw [bridgeIter_stopped N s it h, ih]

/-- C5: at most one client is ever held: an accept while a client is active
leaves the active client (and everything except the rejection log)
unchanged, an accept with no client adopts the connection; and a drain
writes the outbound bytes to exactly one sink — the active client when one
is present (stdout untouched), else this process's stdout (client log
untouched). -/
theorem c5_single_client_routing (N : Nat) (s : BridgeState Nat) (c k a o : Nat) :
    (s.socket_client = some k →
      stepEv N s (.listener c) = { s with rejected := s.rejected ++ [c] }) ∧
    (s.socket_client = none →
      stepEv N s (.listener c) = { s with socket_client := some c }) ∧
    (s.socket_client = some k →
      (drainStep N a o s).stdout_log = s.stdout_log ∧
      ∃ d, (drainStep N a o s).client_log = s.client_log ++ d) ∧
    (s.socket_client = none →
      (drainStep N a o s).client_log = s.client_log ∧
      ∃ d, (drainStep N a o s).stdout_log = s.stdout_log ++ d) := by
  refine ⟨?_, ?_, ?_, ?_⟩
  · intro h
    simp [stepEv, h]
  · intro h
    simp [stepEv, h]
  · intro h
    simp only [drainStep]
    cases hm : s.child_stdin_buf.with_read (writerCb Nat a) with
    | ok n b' =>
        simp only [hm, h]
        cases hm2 : s.child_stdouterr_buf.with_read (writerCb Nat o) with
        | ok m b2 => exact ⟨rfl, _, rfl⟩
        | panic => exact ⟨rfl, [], by simp⟩
        | err e b2 => exact e.elim
    | panic =>
        simp only [hm, h]
        cases hm2 : s.child_stdouterr_buf.with_read (writerCb Nat o) with
        | ok m b2 => exact ⟨rfl, _, rfl⟩
        | panic => exact ⟨rfl, [], by simp⟩
        | err e b2 => exact e.elim
    | err e b' => exact e.elim
  · intro h
    simp only [drainStep]
    cases hm : s.child_stdin_buf.with_read (writerCb Nat a) with
    | ok n b' =>
        simp only [hm, h]
        cases hm2 : s.child_stdouterr_buf.with_read (writerCb Nat o) with
        | ok m b2 => exact ⟨rfl, _, rfl⟩
        | panic => exact ⟨rfl, [], by simp⟩
        | err e b2 => exact e.elim
    | panic =>
        simp only [hm, h]
        cases hm2 : s.child_stdouterr_buf.with_read (writerCb Nat o) with
        | ok m b2 => exact ⟨rfl, _, rfl⟩
        | panic => exact ⟨rfl, [], by simp⟩
        | err e b2 => exact e.elim
    | err e b' => exact e.elim

/-- Witness state for C5: fresh bridge with an active client `3`. -/
def c5Client : BridgeState Nat := { initBridge 1 0 with socket_client := some 3 }

theorem c5_single_client_routing_wit :
    c5Client.socket_client = some 3 ∧
    stepEv 1 c5Client (BridgeEv.listener 9) =
      { c5Client with rejected := c5Client.rejected ++ [9] } := by
  exact ⟨rfl, (c5_single_client_routing 1 c5Client 9 3 0 0).1 rfl⟩

/-- C6: as soon as the shutdown notification is observed among an
iteration's ready events, the loop stops: the events after it are not
processed, the post-iteration drain is skipped (the resulting state is
exactly the state after the events before the notification, with the
stopped flag set — in particular all three sink logs are unchanged), and
every later iteration leaves the state untouched, so buffered bytes are
never flushed after shutdown. -/
theorem c6_shutdown_immediate (N : Nat) (s : BridgeState Nat)
    (evs₁ evs₂ : List (BridgeEv Nat)) (a o : Nat) (its : List (IterIn Nat))
    (h1 : s.stopped = false) (h2 : BridgeEv.notify ∉ evs₁) :
    bridgeIter N s ⟨evs₁ ++ BridgeEv.notify :: evs₂, a, o⟩ =
      { processEvents N s evs₁ with stopped := true } ∧
    runBridge N (bridgeIter N s ⟨evs₁ ++ BridgeEv.notify :: evs₂, a, o⟩) its =
      { processEvents N s evs₁ with stopped := true } ∧
    (bridgeIter N s ⟨evs₁ ++ BridgeEv.notify :: evs₂, a, o⟩).stdin_log =
      (processEvents N s evs₁).stdin_log ∧
    (bridgeIter N s ⟨evs₁ ++ BridgeEv.notify :: evs₂, a, o⟩).client_log =
      (processEvents N s evs₁).client_log ∧
    (bridgeIter N s ⟨evs₁ ++ BridgeEv.notify :: evs₂, a, o⟩).stdout_log =
      (processEvents N s evs₁).stdout_log := by
  have hiter : bridgeIter N s ⟨evs₁ ++ BridgeEv.notify :: evs₂, a, o⟩ =
      { processEvents N s evs₁ with stopped := true } := by
    simp [bridgeIter, h1, processEvents_notify N evs₁ s evs₂ h2]
  refine ⟨hiter, ?_, by rw [hiter], by rw [hiter], by rw [hiter]⟩
  rw [hiter]
  exact runBridge_stopped N _ rfl its

theorem c6_shutdown_immediate_wit :
    (initBridge 1 (0 : Nat)).stopped = false ∧
    bridgeIter 1 (initBridge 1 0) ⟨[BridgeEv.notify], 0, 0⟩ =
      { initBridge 1 (0 : Nat) with stopped := true } := by
  exact ⟨rfl, (c6_shutdown_immediate 1 (initBridge 1 0) [] [] 0 0 [] rfl (by simp)).1⟩

/-- C7 (amended): the loop clears the active client exactly when the
`with_write`-wrapped read from the client returns 0 bytes; that happens
exactly when the client is at end-of-file (`data = []`) — the disconnect
case — or when the inbound buffer offers an empty writable slice, in which
case a still-connected client is dropped; clearing does not stop the loop. -/
theorem c7_client_clear_amended (N : Nat) (s : BridgeState Nat) (k : Nat)
    (data : List Nat) (h : s.socket_client = some k) :
    (stepEv N s (.clientData data)).socket_client =
      (if min data.length ((s.child_stdin_buf.writeEntry N).writeSlice N).length = 0
       then none else some k) ∧
    (stepEv N s (.clientData data)).stopped = s.stopped ∧
    (min data.length ((s.child_stdin_buf.writeEntry N).writeSlice N).length = 0 ↔
      data = [] ∨ ((s.child_stdin_buf.writeEntry N).writeSlice N).length = 0) := by
  have hg : readIntoCb data ((s.child_stdin_buf.writeEntry N).writeSlice N) =
      Except.ok
        (min data.length ((s.child_stdin_buf.writeEntry N).writeSlice N).length,
         data.take ((s.child_stdin_buf.writeEntry N).writeSlice N).length ++
           ((s.child_stdin_buf.writeEntry N).writeSlice N).drop data.length) := rfl
  have hw := with_write_eq_ok hg
  have hle : min data.length ((s.child_stdin_buf.writeEntry N).writeSlice N).length ≤
      N - (s.child_stdin_buf.writeEntry N).write_cursor := by
    have hl : ((s.child_stdin_buf.writeEntry N).writeSlice N).length ≤
        N - (s.child_stdin_buf.writeEntry N).write_cursor := by
      unfold FlipBuffer.writeSlice
      rw [List.length_take]
      exact Nat.min_le_left _ _
    exact le_trans (Nat.min_le_right _ _) hl
  rw [if_neg (Nat.not_lt.mpr hle)] at hw
  refine ⟨?_, ?_, ?_⟩
  · simp only [stepEv, h, hw]
  · simp only [stepEv, h, hw]
  · rw [Nat.min_eq_zero_iff, List.length_eq_zero]

/-- C7 counterexample state: a live client `5` attached while the inbound
buffer (capacity 1) is full with its readable window undrained, so the
writable slice offered to the client read is empty. -/
def c7Bad : BridgeState Nat :=
  { socket_client := some 5
    child_stdin_buf := ⟨[0], [9], 0, 1, 1⟩
    child_stdouterr_buf := FlipBuffer.new 1 0
    stdin_log := []
    client_log := []
    stdout_log := []
    rejected := []
    stopped := false }

/-- C7 counterexample: the client has pending data `[7]` (it has not
disconnected), yet the read copies 0 bytes — the inbound buffer offers no
space — and the loop clears the active-client reference, refuting "a
zero-length read from the active client occurs only when the client has
disconnected". -/
theorem c7_zero_read_counterexample :
    c7Bad.socket_client = some 5 ∧
    ([7] : List Nat) ≠ [] ∧
    FlipBuffer.wf 1 c7Bad.child_stdin_buf ∧
    (stepEv 1 c7Bad (BridgeEv.clientData [7])).socket_client = none := by
  exact ⟨rfl, by decide, by decide, by decide⟩

theorem c7_client_clear_amended_wit :
    c7Bad.socket_client = some 5 ∧
    (stepEv 1 c7Bad (BridgeEv.clientData [7])).socket_client =
      (if min ([7] : List Nat).length
          ((c7Bad.child_stdin_buf.writeEntry 1).writeSlice 1).length = 0
       then none else some 5) := by
  exact ⟨rfl, (c7_client_clear_amended 1 c7Bad 5 [7] rfl).1⟩

/-- Outcome of `child.wait()` as observed by `main` (src/main.rs lines
256-262): `exited c` models `Ok(status)` with `status.code() = Some(c)`,
`signaled` models `Ok(status)` with `status.code() = None` (killed by a
signal), `waitFailed` models `Err(_)`. -/
inductive ChildWait where
  | exited (c : Int)
  | signaled
  | waitFailed
deriving DecidableEq

/-- `die` (src/main.rs lines 117-120) prints to stderr and exits with
status 255; every fatal setup/operation failure goes through it. -/
def dieStatus : Int := 255

/-- The exit status `main` chooses from the child wait outcome (lines
256-262): mirror the child's code, 254 when the child had no code, 255 when
waiting failed. -/
def mainExitStatus : ChildWait → Int
  | .exited c => c
  | .signaled => 254
  | .waitFailed => 255

/-- C8 counterexample: the wait-failure exit status equals the status that
`die` uses for initialization/operation failures, so the two fatal classes
are not distinguishable by exit status, refuting the distinguishability
part of the claim. -/
theorem c8_exit_status_counterexample :
    mainExitStatus ChildWait.waitFailed = dieStatus := rfl

/-- C8 (amended): the process mirrors the child's exit code, uses the fixed
fallback 254 when the child died by signal without a code, and 255 when
waiting for the child failed; the wait-failure status is distinct from the
signal fallback but coincides with the initialization-failure status of
`die`, so those two fatal classes are distinguishable only by their
diagnostic text, not by status. -/
theorem c8_exit_status_amended :
    (∀ c : Int, mainExitStatus (ChildWait.exited c) = c) ∧
    mainExitStatus ChildWait.signaled = 254 ∧
    mainExitStatus ChildWait.waitFailed = 255 ∧
    mainExitStatus ChildWait.waitFailed ≠ mainExitStatus ChildWait.signaled ∧
    mainExitStatus ChildWait.waitFailed = dieStatus ∧
    mainExitStatus ChildWait.signaled ≠ dieStatus := by
  refine ⟨fun c => rfl, rfl, rfl, by decide, rfl, by decide⟩
